import Mathlib

/-
Verification development for the cache-express repository.

The development shallowly embeds the core of the repository:
  * src/utils.ts            — expiryFromMins
  * src/MemoryCache.ts      — MemoryCache (get / set / has / remove / dependenciesChanged)
  * src/RedisCache.ts       — RedisCache.set (and its connection guard)
  * src/expressCache.ts     — the pooling middleware (requestHasPool, the
                              miss/join/leader paths, resolvePool, storeCache,
                              the waiter timeout)

JavaScript values that can appear in a dependency array are embedded as the
inductive type JVal (null, booleans, natural numbers, strings, arrays and
objects); JSON.stringify on that fragment is embedded as jStr.  JavaScript
strings are embedded as List Char.  Date.now() is passed explicitly as a
natural-number clock.  The middleware is embedded as a state machine whose
atomic steps are the synchronous (await-free) segments of the handler, which
is how the single-threaded event loop actually executes them.
-/

namespace CacheExpress

/-- Character code 34, the double-quote character. -/
def quoteC : Char := Char.ofNat 34

/-- Character code 92, the backslash character. -/
def backslashC : Char := Char.ofNat 92

/-- Character code 123, the opening curly brace. -/
def lbraceC : Char := Char.ofNat 123

/-- Character code 125, the closing curly brace. -/
def rbraceC : Char := Char.ofNat 125

/-- JavaScript values that may appear in a dependency array, restricted to the
JSON-representable fragment: null, booleans, natural numbers, strings, arrays
and objects (an object is a list of key/value pairs in insertion order). -/
inductive JVal : Type where
  | jnull : JVal
  | jbool : Bool → JVal
  | jnum : Nat → JVal
  | jstr : List Char → JVal
  | jarr : List JVal → JVal
  | jobj : List (List Char × JVal) → JVal

/-- Decimal digit character for a digit value 0..9. -/
def digitChar : Nat → Char
  | 0 => '0' | 1 => '1' | 2 => '2' | 3 => '3' | 4 => '4'
  | 5 => '5' | 6 => '6' | 7 => '7' | 8 => '8' | _ => '9'

/-- Fuel-driven core of the decimal rendering; the fuel only forces
termination and never runs out when it starts at the number itself. -/
def natCharsAux : Nat → Nat → List Char
  | 0, n => [digitChar n]
  | fuel + 1, n =>
      if n < 10 then [digitChar n] else natCharsAux fuel (n / 10) ++ [digitChar (n % 10)]

/-- Decimal rendering of a natural number, as JSON.stringify renders a
non-negative integer. -/
def natChars (n : Nat) : List Char := natCharsAux n n

/-- Escaping of one character inside a JSON string literal: quote and
backslash receive a backslash prefix, every other character is verbatim. -/
def escChar (c : Char) : List Char :=
  if c = quoteC ∨ c = backslashC then [backslashC, c] else [c]

/-- Escaping of a JSON string body. -/
def escape : List Char → List Char
  | [] => []
  | c :: t => escChar c ++ escape t

mutual

/-- Embedding of JSON.stringify on the JVal fragment. -/
def jStr : JVal → List Char
  | .jnull => ['n', 'u', 'l', 'l']
  | .jbool true => ['t', 'r', 'u', 'e']
  | .jbool false => ['f', 'a', 'l', 's', 'e']
  | .jnum n => natChars n
  | .jstr s => quoteC :: (escape s ++ [quoteC])
  | .jarr xs => '[' :: (jStrItems xs ++ [']'])
  | .jobj ms => lbraceC :: (jStrMembers ms ++ [rbraceC])

/-- Comma-joined serialization of array elements. -/
def jStrItems : List JVal → List Char
  | [] => []
  | [x] => jStr x
  | x :: y :: t => jStr x ++ (',' :: jStrItems (y :: t))

/-- Comma-joined serialization of object members, each as "key":value. -/
def jStrMembers : List (List Char × JVal) → List Char
  | [] => []
  | [(k, v)] => (quoteC :: (escape k ++ [quoteC])) ++ (':' :: jStr v)
  | (k, v) :: y :: t =>
      ((quoteC :: (escape k ++ [quoteC])) ++ (':' :: jStr v)) ++ (',' :: jStrMembers (y :: t))

end

/-- Serialization of a whole dependency array, JSON.stringify(depArrayValues). -/
def jStrDeps (ds : List JVal) : List Char := jStr (.jarr ds)

/-- Lexicographic boolean order on keys, used only to canonicalize object-key
order when defining insertion-order-insensitive deep equality. -/
def keyLe : List Char → List Char → Bool
  | [], _ => true
  | _ :: _, [] => false
  | a :: s, b :: t =>
      if a.toNat < b.toNat then true
      else if b.toNat < a.toNat then false
      else keyLe s t

/-- Insertion into a key-sorted member list. -/
def insertByKey (p : List Char × JVal) : List (List Char × JVal) → List (List Char × JVal)
  | [] => [p]
  | q :: t => if keyLe p.1 q.1 then p :: q :: t else q :: insertByKey p t

/-- Insertion sort of object members by key. -/
def sortByKey : List (List Char × JVal) → List (List Char × JVal)
  | [] => []
  | p :: t => insertByKey p (sortByKey t)

mutual

/-- Canonical form of a value: object members are recursively canonicalized
and sorted by key, so canonical forms are insensitive to key-insertion order. -/
def canon : JVal → JVal
  | .jnull => .jnull
  | .jbool b => .jbool b
  | .jnum n => .jnum n
  | .jstr s => .jstr s
  | .jarr xs => .jarr (canonItems xs)
  | .jobj ms => .jobj (sortByKey (canonMembers ms))

/-- Canonicalization of array elements. -/
def canonItems : List JVal → List JVal
  | [] => []
  | x :: t => canon x :: canonItems t

/-- Canonicalization of object member values. -/
def canonMembers : List (List Char × JVal) → List (List Char × JVal)
  | [] => []
  | (k, v) :: t => (k, canon v) :: canonMembers t

end

mutual

/-- Boolean structural equality of values. -/
def jvalBeq : JVal → JVal → Bool
  | .jnull, .jnull => true
  | .jbool a, .jbool b => decide (a = b)
  | .jnum a, .jnum b => decide (a = b)
  | .jstr a, .jstr b => decide (a = b)
  | .jarr a, .jarr b => itemsBeq a b
  | .jobj a, .jobj b => membersBeq a b
  | _, _ => false

/-- Boolean structural equality of element lists. -/
def itemsBeq : List JVal → List JVal → Bool
  | [], [] => true
  | x :: s, y :: t => jvalBeq x y && itemsBeq s t
  | _, _ => false

/-- Boolean structural equality of member lists. -/
def membersBeq : List (List Char × JVal) → List (List Char × JVal) → Bool
  | [], [] => true
  | (k, v) :: s, (l, w) :: t => decide (k = l) && (jvalBeq v w && membersBeq s t)
  | _, _ => false

end

/-- Structural deep equality of values, deterministic regardless of
key-insertion order in nested objects: equality of canonical forms. -/
def deepEqJ (a b : JVal) : Bool := jvalBeq (canon a) (canon b)

/-- Deep equality of two dependency snapshots. -/
def depsDeepEq (d1 d2 : List JVal) : Bool := deepEqJ (.jarr d1) (.jarr d2)

/-- Pointwise update of a string-keyed map. -/
def upd {β : Type} (f : String → β) (k : String) (v : β) : String → β :=
  fun x => if x = k then v else f x

/-- Version string from package.json, stamped as modelVersion. -/
def version : String := "5.0.0"

/-- Expiry metadata computed by expiryFromMins in src/utils.ts.  The `now`
argument embeds Date.now() at the call.  The expiresAt field of the source (an
ISO-format rendering of expiresTime, used for display only) is not modelled. -/
structure ExpiryData where
  expiryEnabled : Bool
  timeoutMins : Nat
  timeoutMs : Nat
  expiresTime : Nat
deriving DecidableEq

/-- Embedding of expiryFromMins from src/utils.ts. -/
def expiryFromMins (now : Nat) (timeoutMins : Nat) : ExpiryData :=
  { expiryEnabled := timeoutMins ≠ 0
    timeoutMins := timeoutMins
    timeoutMs := timeoutMins * 60000
    expiresTime := now + timeoutMins * 60000 }

/-- Metadata stored alongside a cached value. -/
structure CacheMetaData where
  expiry : ExpiryData
  modelVersion : String
deriving DecidableEq

/-- One stored cache record, src/types/CachedItemContainer.ts, generic in the
stored value type. -/
structure CachedItemContainer (α : Type) where
  value : α
  metaData : CacheMetaData
deriving DecidableEq

/-- State of a MemoryCache instance: the three instance maps of the class in
src/MemoryCache.ts.  A timer entry `true` means an eviction setTimeout is
armed for the key. -/
structure MemoryCache (α : Type) where
  cache : String → Option (CachedItemContainer α)
  dependencies : String → Option (List JVal)
  timers : String → Bool

/-- Empty MemoryCache, as built by the constructor. -/
def MemoryCache.init (α : Type) : MemoryCache α :=
  { cache := fun _ => none, dependencies := fun _ => none, timers := fun _ => false }

/-- Embedding of MemoryCache.dependenciesChanged.  Returns the boolean result
together with the possibly mutated state: when the stored snapshot exists and
its JSON serialization differs from the supplied one, the stored snapshot is
overwritten with the supplied one and true is returned. -/
def MemoryCache.dependenciesChanged {α : Type} (c : MemoryCache α) (key : String)
    (depArrayValues : List JVal) : Bool × MemoryCache α :=
  match c.dependencies key with
  | none => (false, c)
  | some dependencies =>
      if jStrDeps dependencies = jStrDeps depArrayValues then (false, c)
      else (true, { c with dependencies := upd c.dependencies key (some depArrayValues) })

/-- Embedding of MemoryCache.remove: clears any timer, the cache entry and the
stored dependency snapshot for the key. -/
def MemoryCache.remove {α : Type} (c : MemoryCache α) (key : String) : MemoryCache α :=
  { cache := upd c.cache key none
    dependencies := upd c.dependencies key none
    timers := upd c.timers key false }

/-- Embedding of MemoryCache.get.  `now` embeds Date.now() at the call.  The
item is looked up, then the dependency check runs (possibly mutating the
snapshot map); a changed snapshot, a missing item, or an expired item
(expiresTime positive and not after `now`) leads to removal and a null
result. -/
def MemoryCache.get {α : Type} (c : MemoryCache α) (now : Nat) (key : String)
    (depArrayValues : List JVal) : Option (CachedItemContainer α) × MemoryCache α :=
  let item := c.cache key
  let checkDepsChanged := c.dependenciesChanged key depArrayValues
  if checkDepsChanged.1 then (none, checkDepsChanged.2.remove key)
  else
    match item with
    | none => (none, checkDepsChanged.2.remove key)
    | some it =>
        if it.metaData.expiry.expiresTime > 0 ∧ it.metaData.expiry.expiresTime ≤ now then
          (none, checkDepsChanged.2.remove key)
        else (some it, checkDepsChanged.2)

/-- Embedding of MemoryCache.set.  The dependency snapshot is stored first; a
zero timeout stores the entry and returns at once; otherwise a timeout whose
millisecond value exceeds the 32-bit signed maximum accepted by setTimeout
throws, and a representable timeout stores the entry and arms the eviction
timer.  The thrown Error is embedded as Except.error carrying its message,
and the state reached before the throw is returned alongside. -/
def MemoryCache.set {α : Type} (c : MemoryCache α) (now : Nat) (key : String) (value : α)
    (timeoutMins : Nat) (dependencies : List JVal) :
    Except String (CachedItemContainer α) × MemoryCache α :=
  let c0 : MemoryCache α := { c with dependencies := upd c.dependencies key (some dependencies) }
  let expiry := expiryFromMins now timeoutMins
  if timeoutMins = 0 then
    let item : CachedItemContainer α := ⟨value, ⟨expiry, version⟩⟩
    (.ok item, { c0 with cache := upd c0.cache key (some item) })
  else if expiry.timeoutMs > 0x7FFFFFFF then
    (.error "Timeout cannot be greater than 2147483647ms", c0)
  else
    let item : CachedItemContainer α := ⟨value, ⟨expiry, version⟩⟩
    { fst := .ok item
      snd := { c0 with
                cache := upd c0.cache key (some item)
                timers := upd c0.timers key true } }

/-- Embedding of MemoryCache.has: key-in-cache check. -/
def MemoryCache.has {α : Type} (c : MemoryCache α) (key : String) : Bool :=
  (c.cache key).isSome

/-- Stored record shape in the Redis backend: a bare `(value)` wrapper when no
timeout was requested, or a full container plus the absolute PXAT expiry
timestamp handed to the backend. -/
inductive RedisStoredValue (α : Type) where
  | bare : α → RedisStoredValue α
  | container : CachedItemContainer α → Nat → RedisStoredValue α
deriving DecidableEq

/-- State of a RedisCache instance: the connection flag (isOpen and isReady
together), the backend keyspace, and the instance dependency map. -/
structure RedisCache (α : Type) where
  connected : Bool
  store : String → Option (RedisStoredValue α)
  dependencies : String → Option (List JVal)

/-- Embedding of RedisCache.set.  A closed connection reports false; otherwise
the dependency snapshot is stored, and the value is written — with no check
whatsoever on the magnitude of the timeout, whose absolute expiry instant is
delegated to the backend (PXAT).  The Except result records that the source
function never throws: every path returns ok. -/
def RedisCache.set {α : Type} (c : RedisCache α) (now : Nat) (key : String) (value : α)
    (timeoutMins : Nat) (dependencies : List JVal) :
    Except String Bool × RedisCache α :=
  if c.connected = false then (.ok false, c)
  else
    let c0 : RedisCache α := { c with dependencies := upd c.dependencies key (some dependencies) }
    if timeoutMins = 0 then
      (.ok true, { c0 with store := upd c0.store key (some (.bare value)) })
    else
      let expiry := expiryFromMins now timeoutMins
      let item : CachedItemContainer α := ⟨value, ⟨expiry, version⟩⟩
      (.ok true, { c0 with store := upd c0.store key (some (.container item expiry.expiresTime)) })

/-- Response payload cached and broadcast by the middleware,
src/types/CachedResponse.ts: body, serialized headers, status code. -/
structure CachedResponse where
  body : String
  headers : String
  statusCode : Nat
deriving DecidableEq

/-- Middleware options relevant to pooling: the pooling flag and the waiter
timeout in milliseconds (defaults true and 20000 in src/expressCache.ts). -/
structure MwOptions where
  pooling : Bool
  requestTimeoutMs : Nat

/-- Terminal answer a request received from the middleware on the miss paths:
its own freshly computed response (the leader), a broadcast pooled payload (a
waiter), or the 504 gateway-timeout error body (a waiter whose timer fired). -/
inductive MwAnswer where
  | leaderSent : CachedResponse → MwAnswer
  | pooled : CachedResponse → MwAnswer
  | gatewayTimeout504 : MwAnswer
deriving DecidableEq

/-- Payload carried by an answer, when it carries one. -/
def MwAnswer.payload : MwAnswer → Option CachedResponse
  | .leaderSent r => some r
  | .pooled r => some r
  | .gatewayTimeout504 => none

/-- State of the pooling layer of src/expressCache.ts.  Requests are numbered
by natural identifiers.  `inFlight` is the module-level inFlight map; `pool`
holds, per cache key, the identifiers whose respondHandler is registered on
the emitter for that key, in registration order; `timerDeadline` holds, per
waiter, the absolute firing instant of its pending requestTimeout;
`response` records the terminal answer each request was sent, if any;
`downstreamRan` lists, in order, the requests that invoked next() and hence
ran the downstream route handler; `resolveCount` counts, per key, the calls
to resolvePool. -/
structure MwState where
  inFlight : String → Bool
  pool : String → List Nat
  timerDeadline : Nat → Option Nat
  response : Nat → Option MwAnswer
  downstreamRan : List Nat
  resolveCount : String → Nat

/-- Middleware state before any request has been processed. -/
def MwState.init : MwState :=
  { inFlight := fun _ => false
    pool := fun _ => []
    timerDeadline := fun _ => none
    response := fun _ => none
    downstreamRan := []
    resolveCount := fun _ => 0 }

/-- Embedding of requestHasPool from src/expressCache.ts: pooling is on and
the key is marked in flight. -/
def requestHasPool (s : MwState) (opts : MwOptions) (cacheKey : String) : Bool :=
  opts.pooling && s.inFlight cacheKey

/-- One request reaching the cache-miss portion of the middleware (no cached
item, read policy passed, no no-pool header), as the synchronous segment from
the requestHasPool check onward.  When a pool exists the request registers its
respondHandler and arms its timeout; otherwise it marks the key in flight
(when pooling is on) and calls next(), becoming the leader. -/
def arriveMiss (s : MwState) (opts : MwOptions) (now : Nat) (cacheKey : String)
    (i : Nat) : MwState :=
  if requestHasPool s opts cacheKey then
    { s with
        pool := fun k => if k = cacheKey then s.pool k ++ [i] else s.pool k
        timerDeadline := fun j =>
          if j = i then some (now + opts.requestTimeoutMs) else s.timerDeadline j }
  else
    { s with
        inFlight := fun k =>
          if k = cacheKey then (if opts.pooling then true else s.inFlight k)
          else s.inFlight k
        downstreamRan := s.downstreamRan ++ [i] }

/-- Embedding of resolvePool from src/expressCache.ts: when pooling is on the
in-flight mark is deleted; the broadcast delivers the final payload to every
registered respondHandler for the key (each of which clears its own timer),
and the once-registered handlers are gone afterwards. -/
def resolvePool (s : MwState) (opts : MwOptions) (cacheKey : String)
    (finalResponse : CachedResponse) : MwState :=
  let delivered := s.pool cacheKey
  { s with
      inFlight := fun k =>
        if k = cacheKey then (if opts.pooling then false else s.inFlight k)
        else s.inFlight k
      pool := fun k => if k = cacheKey then [] else s.pool k
      timerDeadline := fun j => if j ∈ delivered then none else s.timerDeadline j
      response := fun j => if j ∈ delivered then some (.pooled finalResponse) else s.response j
      resolveCount := fun k => if k = cacheKey then s.resolveCount k + 1 else s.resolveCount k }

/-- Result of the shouldSetCache policy: true, a reason string (decline with
reason), or any other non-true value (decline). -/
inductive SetPolicyResult where
  | allow : SetPolicyResult
  | declineWithReason : String → SetPolicyResult
  | decline : SetPolicyResult

/-- Embedding of storeCache from src/expressCache.ts, with the outcome of the
awaited cache.set call supplied at the interface boundary: ok b embeds a
normal return (b the truthiness of cachedSuccessfully), error embeds a throw.
A declined policy resolves the pool at once; an ok store resolves the pool
after the write; a throwing store rejects the storeCache promise before
resolvePool runs, leaving the pool and the in-flight mark untouched. -/
def storeCache (s : MwState) (opts : MwOptions) (cacheKey : String)
    (finalResponse : CachedResponse) (policy : SetPolicyResult)
    (setOutcome : Except String Bool) : MwState :=
  match policy with
  | .allow =>
      match setOutcome with
      | .error _ => s
      | .ok _ => resolvePool s opts cacheKey finalResponse
  | _ => resolvePool s opts cacheKey finalResponse

/-- Adapter from a MemoryCache.set result to the middleware's view of the
awaited cache.set call: a returned container is truthy, a throw rejects. -/
def memSetOutcome {α : Type} : Except String (CachedItemContainer α) → Except String Bool
  | .error m => .error m
  | .ok _ => .ok true

/-- The leader's response completing: the wrapped res.send runs storeCache and
sends the leader's own response through the original send. -/
def leaderComplete (s : MwState) (opts : MwOptions) (cacheKey : String) (i : Nat)
    (finalResponse : CachedResponse) (policy : SetPolicyResult)
    (setOutcome : Except String Bool) : MwState :=
  let s1 := storeCache s opts cacheKey finalResponse policy setOutcome
  { s1 with response := fun j => if j = i then some (.leaderSent finalResponse) else s1.response j }

/-- A waiter's requestTimeout firing at instant `now`: enabled only while the
timer is pending and due; it unregisters that waiter's respondHandler from the
emitter and sends that waiter the 504 REQUEST_TIMEOUT error body. -/
def fireTimeout (s : MwState) (cacheKey : String) (i : Nat) (now : Nat) : MwState :=
  match s.timerDeadline i with
  | none => s
  | some d =>
      if d ≤ now then
        { s with
            pool := fun k => if k = cacheKey then (s.pool k).filter (fun j => j ≠ i) else s.pool k
            timerDeadline := fun j => if j = i then none else s.timerDeadline j
            response := fun j => if j = i then some .gatewayTimeout504 else s.response j }
      else s

/-- Folding a batch of concurrent cache-miss arrivals for one key, in arrival
order. -/
def arriveAll (s : MwState) (opts : MwOptions) (now : Nat) (cacheKey : String)
    (ids : List Nat) : MwState :=
  ids.foldl (fun st i => arriveMiss st opts now cacheKey i) s

/-- Head condition under which a serialized value can be unambiguously cut
from a longer string: the remainder is empty or starts with one of the three
JSON delimiters that can follow a value. -/
def DelimHead : List Char → Prop
  | [] => True
  | c :: _ => c = ',' ∨ c = ']' ∨ c = rbraceC

/-- Reading an updated map at the updated key gives the new value. -/
theorem upd_self {β : Type} (f : String → β) (k : String) (v : β) : upd f k v k = v := by
  simp [upd]

/-- Reading an updated map elsewhere gives the old value. -/
theorem upd_ne {β : Type} (f : String → β) (k x : String) (v : β) (h : x ≠ k) :
    upd f k v x = f x := by
  simp [upd, h]

/-- State reached by a MemoryCache.set with a non-zero, representable
timeout: snapshot stored, entry stored, timer armed. -/
theorem MemoryCache.set_snd_ttl_pos {α : Type} (c : MemoryCache α) (t0 : Nat) (key : String)
    (v : α) (ttl : Nat) (deps : List JVal)
    (httl : ttl ≠ 0) (hrange : ttl * 60000 ≤ 2147483647) :
    MemoryCache.set c t0 key v ttl deps =
      (.ok ⟨v, ⟨expiryFromMins t0 ttl, version⟩⟩,
        { cache := upd c.cache key (some ⟨v, ⟨expiryFromMins t0 ttl, version⟩⟩)
          dependencies := upd c.dependencies key (some deps)
          timers := upd c.timers key true }) := by
  simp only [MemoryCache.set, expiryFromMins]
  rw [if_neg httl, if_neg (by omega)]

/-- The dependency snapshot stored by MemoryCache.set, on every branch
including the throwing one. -/
theorem MemoryCache.set_snd_dependencies {α : Type} (c : MemoryCache α) (t0 : Nat)
    (key : String) (v : α) (ttl : Nat) (deps : List JVal) :
    ((MemoryCache.set c t0 key v ttl deps).2).dependencies = upd c.dependencies key (some deps) := by
  simp only [MemoryCache.set]
  split
  · rfl
  · split <;> rfl

/-- C2 (amended part): for every key, value, positive representable TTL and
dependency snapshot, a set followed by a get with the same snapshot performed
strictly before the expiry instant returns exactly the stored container. -/
theorem C2_set_then_get_returns_value {α : Type} (c : MemoryCache α) (t0 t1 : Nat)
    (key : String) (v : α) (ttl : Nat) (deps : List JVal)
    (httl : 0 < ttl) (hrange : ttl * 60000 ≤ 2147483647) (hfresh : t1 < t0 + ttl * 60000) :
    ∃ item : CachedItemContainer α,
      (MemoryCache.set c t0 key v ttl deps).1 = .ok item ∧
      item.value = v ∧
      (MemoryCache.get (MemoryCache.set c t0 key v ttl deps).2 t1 key deps).1 = some item := by
  refine ⟨⟨v, ⟨expiryFromMins t0 ttl, version⟩⟩, ?_, rfl, ?_⟩
  · rw [MemoryCache.set_snd_ttl_pos c t0 key v ttl deps (by omega) hrange]
  · rw [MemoryCache.set_snd_ttl_pos c t0 key v ttl deps (by omega) hrange]
    simp only [MemoryCache.get, MemoryCache.dependenciesChanged, upd_self,
      eq_self_iff_true, if_true, expiryFromMins]
    have hcond : ¬(t0 + ttl * 60000 > 0 ∧ t0 + ttl * 60000 ≤ t1) := by omega
    rw [if_neg hcond]
    simp

/-- Witness for C2 at a concrete input: key "k", value 42, one-minute TTL,
snapshot [5], read 30 seconds after the write. -/
theorem C2_set_then_get_returns_value_witness :
    ∃ item : CachedItemContainer Nat,
      (MemoryCache.set (MemoryCache.init Nat) 0 "k" 42 1 [.jnum 5]).1 = .ok item ∧
      item.value = 42 ∧
      (MemoryCache.get (MemoryCache.set (MemoryCache.init Nat) 0 "k" 42 1 [.jnum 5]).2
          30000 "k" [.jnum 5]).1 = some item :=
  C2_set_then_get_returns_value (MemoryCache.init Nat) 0 30000 "k" 42 1 [.jnum 5]
    (by decide) (by decide) (by decide)

/-- Counterexample to C2 as stated: with TTL 0 (expiry disabled, which never
elapses) the set succeeds but an immediate get at the very same instant
already returns null, because the stored expiresTime equals the write-time
clock and the expiry guard tests expiresTime > 0 instead of the
expiryEnabled flag. -/
theorem C2_counterexample_ttl_zero :
    (MemoryCache.set (MemoryCache.init Nat) 1000 "k" 42 0 []).1.toOption =
      some ⟨42, ⟨⟨false, 0, 0, 1000⟩, "5.0.0"⟩⟩ ∧
    (MemoryCache.get (MemoryCache.set (MemoryCache.init Nat) 1000 "k" 42 0 []).2
        1000 "k" []).1 = none := by
  decide

/-- C3: an entry stored with TTL 0 carries expiryEnabled = false, yet every
later get treats it as expired — at the very write instant and arbitrarily
much later — and evicts it, because the guard in get tests
expiresTime > 0 (always true for a positive clock) rather than the
expiryEnabled flag.  The claim states the entry never expires by time; the
code expires it immediately. -/
theorem C3_ttl_zero_entry_treated_expired :
    ((MemoryCache.set (MemoryCache.init Nat) 1000 "k" 42 0 []).2.cache "k" =
        some ⟨42, ⟨⟨false, 0, 0, 1000⟩, "5.0.0"⟩⟩) ∧
    (MemoryCache.get (MemoryCache.set (MemoryCache.init Nat) 1000 "k" 42 0 []).2
        1000 "k" []).1 = none ∧
    (MemoryCache.get (MemoryCache.set (MemoryCache.init Nat) 1000 "k" 42 0 []).2
        999999999 "k" []).1 = none ∧
    MemoryCache.has
      ((MemoryCache.get (MemoryCache.set (MemoryCache.init Nat) 1000 "k" 42 0 []).2
          1000 "k" []).2) "k" = false := by
  decide

/-- C7 (amended part): MemoryCache.set rejects, with a thrown error at set
time, every non-zero timeout whose millisecond value exceeds the 32-bit
signed maximum accepted by setTimeout. -/
theorem C7_memory_set_rejects_unrepresentable_ttl {α : Type} (c : MemoryCache α) (now : Nat)
    (key : String) (v : α) (ttl : Nat) (deps : List JVal)
    (h : ttl * 60000 > 2147483647) :
    (MemoryCache.set c now key v ttl deps).1 =
      .error "Timeout cannot be greater than 2147483647ms" := by
  have h0 : ¬(ttl = 0) := by omega
  have h1 : ttl * 60000 > 0x7FFFFFFF := by omega
  simp only [MemoryCache.set, expiryFromMins]
  rw [if_neg h0, if_pos h1]

/-- Witness for C7 at a concrete input: 35792 minutes is 2147520000 ms,
beyond the 32-bit signed maximum. -/
theorem C7_memory_set_rejects_unrepresentable_ttl_witness :
    (35792 * 60000 > 2147483647) ∧
    (MemoryCache.set (MemoryCache.init Nat) 1000 "k" 42 35792 []).1 =
      .error "Timeout cannot be greater than 2147483647ms" :=
  ⟨by decide,
    C7_memory_set_rejects_unrepresentable_ttl (MemoryCache.init Nat) 1000 "k" 42 35792 []
      (by decide)⟩

/-- Counterexample to C7 as stated: RedisCache.set, given the same
out-of-range timeout on a connected client, raises no error at all — it
reports success and stores the record with the full absolute expiry
timestamp handed to the backend. -/
theorem C7_redis_counterexample :
    (35792 * 60000 > 2147483647) ∧
    ((RedisCache.set (⟨true, fun _ => none, fun _ => none⟩ : RedisCache Nat)
        1000 "k" 42 35792 []).1.toOption = some true) ∧
    (((RedisCache.set (⟨true, fun _ => none, fun _ => none⟩ : RedisCache Nat)
        1000 "k" 42 35792 []).2).store "k" =
      some (.container ⟨42, ⟨⟨true, 35792, 35792 * 60000, 1000 + 35792 * 60000⟩, "5.0.0"⟩⟩
        (1000 + 35792 * 60000))) := by
  decide

/-- C10: when MemoryCache.set throws the timeout-range error, the cache map
and the timer map are exactly as before the call — no entry written or
replaced, no timer armed — while the dependency snapshot for the key has
already been overwritten with the new dependencies, and no other key's
snapshot is touched. -/
theorem C10_throwing_set_partial_state {α : Type} (c : MemoryCache α) (now : Nat)
    (key : String) (v : α) (ttl : Nat) (deps : List JVal)
    (h0 : ttl ≠ 0) (h : ttl * 60000 > 2147483647) :
    (MemoryCache.set c now key v ttl deps).1 =
        .error "Timeout cannot be greater than 2147483647ms" ∧
    ((MemoryCache.set c now key v ttl deps).2).cache = c.cache ∧
    ((MemoryCache.set c now key v ttl deps).2).timers = c.timers ∧
    ((MemoryCache.set c now key v ttl deps).2).dependencies key = some deps ∧
    (∀ x, x ≠ key → ((MemoryCache.set c now key v ttl deps).2).dependencies x =
        c.dependencies x) := by
  have h1 : ttl * 60000 > 0x7FFFFFFF := by omega
  simp only [MemoryCache.set, expiryFromMins]
  rw [if_neg h0, if_pos h1]
  exact ⟨rfl, rfl, rfl, upd_self c.dependencies key (some deps),
    fun x hx => upd_ne c.dependencies key x (some deps) hx⟩

/-- Witness for C10 at a concrete input. -/
theorem C10_throwing_set_partial_state_witness :
    (MemoryCache.set (MemoryCache.init Nat) 7 "k" 42 35792 [.jnum 9]).1 =
        .error "Timeout cannot be greater than 2147483647ms" ∧
    ((MemoryCache.set (MemoryCache.init Nat) 7 "k" 42 35792 [.jnum 9]).2).cache =
        (MemoryCache.init Nat).cache ∧
    ((MemoryCache.set (MemoryCache.init Nat) 7 "k" 42 35792 [.jnum 9]).2).timers =
        (MemoryCache.init Nat).timers ∧
    ((MemoryCache.set (MemoryCache.init Nat) 7 "k" 42 35792 [.jnum 9]).2).dependencies "k" =
        some [.jnum 9] ∧
    (∀ x, x ≠ "k" →
      ((MemoryCache.set (MemoryCache.init Nat) 7 "k" 42 35792 [.jnum 9]).2).dependencies x =
        (MemoryCache.init Nat).dependencies x) :=
  C10_throwing_set_partial_state (MemoryCache.init Nat) 7 "k" 42 35792 [.jnum 9]
    (by decide) (by decide)

/-- C9 (amended part): the dependency comparison is JSON-serialization
equality — with a snapshot stored for the key, the check reports unchanged
exactly when the stored and supplied snapshots serialize identically. -/
theorem C9_dependency_check_serialization_based {α : Type} (c : MemoryCache α) (key : String)
    (D1 D2 : List JVal) (hstored : c.dependencies key = some D1) :
    ((MemoryCache.dependenciesChanged c key D2).1 = false ↔ jStrDeps D1 = jStrDeps D2) := by
  by_cases h : jStrDeps D1 = jStrDeps D2 <;>
    simp [MemoryCache.dependenciesChanged, hstored, h]

/-- Witness for C9's amended statement at a concrete input. -/
theorem C9_dependency_check_serialization_based_witness :
    ((MemoryCache.dependenciesChanged
        (⟨fun _ => none, upd (fun _ => none) "k" (some [.jnum 1]), fun _ => false⟩ :
          MemoryCache Nat) "k" [.jnum 2]).1 = false ↔
      jStrDeps [.jnum 1] = jStrDeps [.jnum 2]) :=
  C9_dependency_check_serialization_based
    (⟨fun _ => none, upd (fun _ => none) "k" (some [.jnum 1]), fun _ => false⟩ : MemoryCache Nat)
    "k" [.jnum 1] [.jnum 2] (upd_self (fun _ => none) "k" (some ([JVal.jnum 1] : List JVal)))

/-- Counterexample to C9 as stated: two dependency snapshots that are
structurally deep-equal — the same single object with its two keys inserted
in different orders — are reported as changed by the comparison, because the
two insertion orders serialize to different JSON strings. -/
theorem C9_key_order_counterexample :
    depsDeepEq [.jobj [(['a'], .jnum 1), (['b'], .jnum 2)]]
        [.jobj [(['b'], .jnum 2), (['a'], .jnum 1)]] = true ∧
    (MemoryCache.dependenciesChanged
        (⟨fun _ => none,
          upd (fun _ => none) "k" (some [.jobj [(['a'], .jnum 1), (['b'], .jnum 2)]]),
          fun _ => false⟩ : MemoryCache Nat)
        "k" [.jobj [(['b'], .jnum 2), (['a'], .jnum 1)]]).1 = true := by
  decide

/-- The fuel argument of natCharsAux is irrelevant once it bounds the
number. -/
theorem natCharsAux_invariant : ∀ (n f g : Nat), n ≤ f → n ≤ g →
    natCharsAux f n = natCharsAux g n := by
  intro n
  induction n using Nat.strong_induction_on with
  | _ n ih =>
    intro f g hf hg
    match f, g with
    | 0, 0 => rfl
    | 0, g + 1 =>
      have hn : n = 0 := by omega
      subst hn
      simp [natCharsAux]
    | f + 1, 0 =>
      have hn : n = 0 := by omega
      subst hn
      simp [natCharsAux]
    | f + 1, g + 1 =>
      simp only [natCharsAux]
      by_cases h10 : n < 10
      · rw [if_pos h10, if_pos h10]
      · rw [if_neg h10, if_neg h10]
        have hlt : n / 10 < n := Nat.div_lt_self (by omega) (by omega)
        rw [ih (n / 10) hlt f (n / 10) (by omega) (by omega),
          ih (n / 10) hlt g (n / 10) (by omega) (by omega)]

/-- Unfolding equation for natChars. -/
theorem natChars_eq (n : Nat) :
    natChars n = if n < 10 then [digitChar n] else natChars (n / 10) ++ [digitChar (n % 10)] := by
  match n with
  | 0 => simp [natChars, natCharsAux]
  | m + 1 =>
    show natCharsAux (m + 1) (m + 1) = _
    simp only [natCharsAux]
    by_cases h10 : m + 1 < 10
    · rw [if_pos h10, if_pos h10]
    · rw [if_neg h10, if_neg h10]
      have hlt : (m + 1) / 10 < m + 1 := Nat.div_lt_self (by omega) (by omega)
      rw [natCharsAux_invariant ((m + 1) / 10) m ((m + 1) / 10) (by omega) (by omega)]
      rfl

/-- Every digit character is a digit. -/
theorem digitChar_isDigit (d : Nat) : (digitChar d).isDigit = true := by
  rcases d with _|_|_|_|_|_|_|_|_|_ <;> rfl

/-- Digit characters of digit values are distinct. -/
theorem digitChar_inj (a b : Nat) (ha : a < 10) (hb : b < 10)
    (h : digitChar a = digitChar b) : a = b := by
  interval_cases a <;> interval_cases b <;> first | rfl | exact absurd h (by decide)

/-- A decimal rendering is never empty. -/
theorem natChars_ne_nil (n : Nat) : natChars n ≠ [] := by
  rw [natChars_eq]
  split <;> simp

/-- Every character of a decimal rendering is a digit. -/
theorem natChars_all_digits : ∀ (n : Nat), ∀ c ∈ natChars n, c.isDigit = true := by
  intro n
  induction n using Nat.strong_induction_on with
  | _ n ih =>
    rw [natChars_eq]
    split
    · intro c hc
      rw [List.mem_singleton] at hc
      subst hc
      exact digitChar_isDigit n
    · intro c hc
      rcases List.mem_append.1 hc with hmem | hmem
      · exact ih (n / 10) (Nat.div_lt_self (by omega) (by omega)) c hmem
      · rw [List.mem_singleton] at hmem
        subst hmem
        exact digitChar_isDigit (n % 10)

/-- Decimal renderings of distinct numbers are distinct. -/
theorem natChars_inj : ∀ (n m : Nat), natChars n = natChars m → n = m := by
  intro n
  induction n using Nat.strong_induction_on with
  | _ n ih =>
    intro m h
    rw [natChars_eq n, natChars_eq m] at h
    by_cases h1 : n < 10 <;> by_cases h2 : m < 10
    · rw [if_pos h1, if_pos h2] at h
      exact digitChar_inj n m h1 h2 (List.cons.inj h).1
    · rw [if_pos h1, if_neg h2] at h
      have hlen := congrArg List.length h
      simp only [List.length_singleton, List.length_append] at hlen
      have : (natChars (m / 10)).length = 0 := by omega
      exact absurd (List.length_eq_zero.1 this) (natChars_ne_nil (m / 10))
    · rw [if_neg h1, if_pos h2] at h
      have hlen := congrArg List.length h
      simp only [List.length_singleton, List.length_append] at hlen
      have : (natChars (n / 10)).length = 0 := by omega
      exact absurd (List.length_eq_zero.1 this) (natChars_ne_nil (n / 10))
    · rw [if_neg h1, if_neg h2] at h
      obtain ⟨hpre, hlast⟩ := List.append_inj' h (by simp)
      have hdiv := ih (n / 10) (Nat.div_lt_self (by omega) (by omega)) (m / 10) hpre
      have hmod := digitChar_inj (n % 10) (m % 10) (Nat.mod_lt n (by omega))
        (Nat.mod_lt m (by omega)) (List.cons.inj hlast).1
      omega

/-- Splitting an all-true prefix off a concatenation whose remainder starts
falsely: takeWhile returns the prefix and dropWhile the remainder. -/
theorem takeWhile_append_split {p : Char → Bool} :
    ∀ (A r : List Char), (∀ c ∈ A, p c = true) →
      (∀ c t, r = c :: t → p c = false) →
      (A ++ r).takeWhile p = A ∧ (A ++ r).dropWhile p = r := by
  intro A
  induction A with
  | nil =>
    intro r _ hr
    cases r with
    | nil => exact ⟨rfl, rfl⟩
    | cons c t =>
      simp only [List.nil_append, List.takeWhile_cons, List.dropWhile_cons, hr c t rfl]
      exact ⟨rfl, rfl⟩
  | cons a A ih =>
    intro r hA hr
    have ha : p a = true := hA a (List.mem_cons_self a A)
    have htail := ih r (fun c hc => hA c (List.mem_cons_of_mem a hc)) hr
    simp only [List.cons_append, List.takeWhile_cons, List.dropWhile_cons, ha,
      if_true, eq_self_iff_true]
    exact ⟨by rw [htail.1], htail.2⟩

/-- A decimal rendering followed by a non-digit remainder determines both the
number and the remainder. -/
theorem natChars_prefix (n1 n2 : Nat) (r1 r2 : List Char)
    (h1 : ∀ c t, r1 = c :: t → c.isDigit = false)
    (h2 : ∀ c t, r2 = c :: t → c.isDigit = false)
    (h : natChars n1 ++ r1 = natChars n2 ++ r2) : n1 = n2 ∧ r1 = r2 := by
  have t1 := takeWhile_append_split (natChars n1) r1 (natChars_all_digits n1) h1
  have t2 := takeWhile_append_split (natChars n2) r2 (natChars_all_digits n2) h2
  rw [h] at t1
  exact ⟨natChars_inj n1 n2 (t1.1.symm.trans t2.1), (t1.2.symm.trans t2.2)⟩

/-- An escaped string body followed by an unescaped closing quote determines
both the body and the remainder after the quote: the escaping of quote and
backslash makes the first unescaped quote the unambiguous terminator. -/
theorem escape_split : ∀ (s1 s2 r1 r2 : List Char),
    escape s1 ++ (quoteC :: r1) = escape s2 ++ (quoteC :: r2) → s1 = s2 ∧ r1 = r2 := by
  intro s1
  induction s1 with
  | nil =>
    intro s2 r1 r2 h
    cases s2 with
    | nil =>
      simp only [escape, List.nil_append] at h
      exact ⟨rfl, (List.cons.inj h).2⟩
    | cons c t =>
      by_cases hc : c = quoteC ∨ c = backslashC
      · simp only [escape, escChar, if_pos hc, List.nil_append, List.cons_append,
          List.append_assoc] at h
        exact absurd (List.cons.inj h).1 (by rcases hc with h' | h' <;> subst h' <;> decide)
      · simp only [escape, escChar, if_neg hc, List.nil_append, List.cons_append,
          List.singleton_append] at h
        have : quoteC = c := (List.cons.inj h).1
        exact absurd (Or.inl this.symm) hc
  | cons c1 t1 ih =>
    intro s2 r1 r2 h
    cases s2 with
    | nil =>
      by_cases hc : c1 = quoteC ∨ c1 = backslashC
      · simp only [escape, escChar, if_pos hc, List.nil_append, List.cons_append,
          List.append_assoc] at h
        exact absurd (List.cons.inj h).1 (by rcases hc with h' | h' <;> subst h' <;> decide)
      · simp only [escape, escChar, if_neg hc, List.nil_append, List.cons_append,
          List.singleton_append] at h
        have : c1 = quoteC := (List.cons.inj h).1
        exact absurd (Or.inl this) hc
    | cons c2 t2 =>
      by_cases h1 : c1 = quoteC ∨ c1 = backslashC <;>
        by_cases h2 : c2 = quoteC ∨ c2 = backslashC
      · simp only [escape, escChar, if_pos h1, if_pos h2, List.cons_append,
          List.append_assoc] at h
        have hcc : c1 = c2 := (List.cons.inj (List.cons.inj h).2).1
        have ht := ih t2 r1 r2 (List.cons.inj (List.cons.inj h).2).2
        exact ⟨by rw [hcc, ht.1], ht.2⟩
      · simp only [escape, escChar, if_pos h1, if_neg h2, List.cons_append,
          List.append_assoc, List.singleton_append] at h
        exact absurd (Or.inr (List.cons.inj h).1.symm) h2
      · simp only [escape, escChar, if_neg h1, if_pos h2, List.cons_append,
          List.append_assoc, List.singleton_append] at h
        exact absurd (Or.inr (List.cons.inj h).1) h1
      · simp only [escape, escChar, if_neg h1, if_neg h2, List.cons_append,
          List.singleton_append] at h
        have hcc : c1 = c2 := (List.cons.inj h).1
        have ht := ih t2 r1 r2 (List.cons.inj h).2
        exact ⟨by rw [hcc, ht.1], ht.2⟩

/-- The first character of a serialized value identifies its constructor
class: a letter for the literals, a digit for numbers, a quote for strings,
and the opening bracket or brace for arrays and objects. -/
theorem jStr_head (v : JVal) : ∃ c t, jStr v = c :: t ∧
    (c = 'n' ∨ c = 't' ∨ c = 'f' ∨ c.isDigit = true ∨ c = quoteC ∨ c = '[' ∨ c = lbraceC) := by
  cases v with
  | jnull => exact ⟨'n', ['u', 'l', 'l'], by simp [jStr], Or.inl rfl⟩
  | jbool b =>
    cases b with
    | true => exact ⟨'t', ['r', 'u', 'e'], by simp [jStr], Or.inr (Or.inl rfl)⟩
    | false => exact ⟨'f', ['a', 'l', 's', 'e'], by simp [jStr], Or.inr (Or.inr (Or.inl rfl))⟩
  | jnum n =>
    rcases hn : natChars n with _ | ⟨c, t⟩
    · exact absurd hn (natChars_ne_nil n)
    · refine ⟨c, t, by simp [jStr, hn], Or.inr (Or.inr (Or.inr (Or.inl ?_)))⟩
      exact natChars_all_digits n c (hn ▸ List.mem_cons_self c t)
  | jstr s => exact ⟨quoteC, escape s ++ [quoteC], by simp [jStr], by simp⟩
  | jarr xs => exact ⟨'[', jStrItems xs ++ [']'], by simp [jStr], by simp⟩
  | jobj ms => exact ⟨lbraceC, jStrMembers ms ++ [rbraceC], by simp [jStr], by simp⟩

/-- A serialized value never starts with one of the three delimiters, nor
with a colon. -/
theorem jStr_head_not_delim (v : JVal) (c : Char) (t : List Char) (h : jStr v = c :: t) :
    c ≠ ',' ∧ c ≠ ']' ∧ c ≠ rbraceC := by
  obtain ⟨c', t', h', hset⟩ := jStr_head v
  rw [h] at h'
  have hc : c = c' := (List.cons.inj h').1
  subst hc
  refine ⟨?_, ?_, ?_⟩ <;> intro he <;> subst he <;>
    rcases hset with h'' | h'' | h'' | h'' | h'' | h'' | h'' <;> exact absurd h'' (by decide)

/-- A decimal rendering glued to any remainder starts with a digit. -/
theorem natChars_append_head (n : Nat) (r s : List Char) (c : Char)
    (h : natChars n ++ r = c :: s) : c.isDigit = true := by
  rcases hn : natChars n with _ | ⟨d, t⟩
  · exact absurd hn (natChars_ne_nil n)
  · rw [hn, List.cons_append] at h
    have : d = c := (List.cons.inj h).1
    exact this ▸ natChars_all_digits n d (hn ▸ List.mem_cons_self d t)

/-- A delimiter-headed remainder never starts with a digit. -/
theorem delimHead_not_digit (r : List Char) (h : DelimHead r) :
    ∀ c t, r = c :: t → c.isDigit = false := by
  intro c t hr
  subst hr
  rcases h with h' | h' | h' <;> subst h' <;> decide

/-- A nonempty item list's serialization glued to a remainder starts with the
serialization of its first item. -/
theorem jStrItems_cons_append (y : JVal) (yt : List JVal) (w : List Char) :
    ∃ z, jStrItems (y :: yt) ++ w = jStr y ++ z := by
  rcases yt with _ | ⟨y', yt'⟩
  · exact ⟨w, by simp [jStrItems]⟩
  · exact ⟨',' :: (jStrItems (y' :: yt') ++ w),
      by simp [jStrItems, List.cons_append, List.append_assoc]⟩

/-- Cutting two item lists against a closing bracket: if each item of the
first list cuts unambiguously against delimiters, equal serializations with
equal closing remainders force equal lists and remainders. -/
theorem jStrItems_split : ∀ (xs : List JVal),
    (∀ x ∈ xs, ∀ (v2 : JVal) (s1 s2 : List Char), DelimHead s1 → DelimHead s2 →
      jStr x ++ s1 = jStr v2 ++ s2 → x = v2 ∧ s1 = s2) →
    ∀ (ys : List JVal) (r1 r2 : List Char),
      jStrItems xs ++ (']' :: r1) = jStrItems ys ++ (']' :: r2) → xs = ys ∧ r1 = r2 := by
  intro xs
  induction xs with
  | nil =>
    intro _ ys r1 r2 h
    rcases ys with _ | ⟨y, yt⟩
    · simp only [jStrItems, List.nil_append] at h
      exact ⟨rfl, (List.cons.inj h).2⟩
    · obtain ⟨z, hz⟩ := jStrItems_cons_append y yt (']' :: r2)
      rw [hz] at h
      simp only [jStrItems, List.nil_append] at h
      rcases hy : jStr y with _ | ⟨c, t⟩
      · obtain ⟨c', t', h', _⟩ := jStr_head y
        rw [hy] at h'
        exact absurd h' (by simp)
      · rw [hy, List.cons_append] at h
        exact absurd ((List.cons.inj h).1.symm) (jStr_head_not_delim y c t hy).2.1
  | cons x xt ih =>
    intro hIH ys r1 r2 h
    have hIHx := hIH x (List.mem_cons_self x xt)
    rcases ys with _ | ⟨y, yt⟩
    · obtain ⟨z, hz⟩ := jStrItems_cons_append x xt (']' :: r1)
      rw [hz] at h
      simp only [jStrItems, List.nil_append] at h
      rcases hx : jStr x with _ | ⟨c, t⟩
      · obtain ⟨c', t', h', _⟩ := jStr_head x
        rw [hx] at h'
        exact absurd h' (by simp)
      · rw [hx, List.cons_append] at h
        exact absurd ((List.cons.inj h).1) (jStr_head_not_delim x c t hx).2.1
    · rcases xt with _ | ⟨x', xt'⟩ <;> rcases yt with _ | ⟨y', yt'⟩
      · simp only [jStrItems] at h
        obtain ⟨hxy, hr⟩ := hIHx y (']' :: r1) (']' :: r2)
          (Or.inr (Or.inl rfl)) (Or.inr (Or.inl rfl)) h
        exact ⟨by rw [hxy], (List.cons.inj hr).2⟩
      · simp only [jStrItems, List.cons_append, List.append_assoc] at h
        obtain ⟨_, hr⟩ := hIHx y (']' :: r1) (',' :: (jStrItems (y' :: yt') ++ (']' :: r2)))
          (Or.inr (Or.inl rfl)) (Or.inl rfl) h
        exact absurd (List.cons.inj hr).1 (by decide)
      · simp only [jStrItems, List.cons_append, List.append_assoc] at h
        obtain ⟨_, hr⟩ := hIHx y (',' :: (jStrItems (x' :: xt') ++ (']' :: r1))) (']' :: r2)
          (Or.inl rfl) (Or.inr (Or.inl rfl)) h
        exact absurd (List.cons.inj hr).1 (by decide)
      · simp only [jStrItems, List.cons_append, List.append_assoc] at h
        obtain ⟨hxy, hr⟩ := hIHx y (',' :: (jStrItems (x' :: xt') ++ (']' :: r1)))
          (',' :: (jStrItems (y' :: yt') ++ (']' :: r2))) (Or.inl rfl) (Or.inl rfl) h
        have htail := (List.cons.inj hr).2
        obtain ⟨hts, htr⟩ := ih (fun z hz => hIH z (List.mem_cons_of_mem x hz))
          (y' :: yt') r1 r2 htail
        exact ⟨by rw [hxy, hts], htr⟩

/-- A nonempty member list's serialization glued to a remainder starts with
the quoted first key, a colon and the first value. -/
theorem jStrMembers_cons_append (k : List Char) (v : JVal)
    (yt : List (List Char × JVal)) (w : List Char) :
    ∃ z, jStrMembers ((k, v) :: yt) ++ w =
      quoteC :: (escape k ++ (quoteC :: (':' :: (jStr v ++ z)))) := by
  rcases yt with _ | ⟨y', yt'⟩
  · exact ⟨w, by simp [jStrMembers, List.cons_append, List.append_assoc]⟩
  · exact ⟨',' :: (jStrMembers (y' :: yt') ++ w),
      by simp [jStrMembers, List.cons_append, List.append_assoc]⟩

/-- Cutting two member lists against a closing brace, given unambiguous
cutting of the member values. -/
theorem jStrMembers_split : ∀ (xs : List (List Char × JVal)),
    (∀ p ∈ xs, ∀ (v2 : JVal) (s1 s2 : List Char), DelimHead s1 → DelimHead s2 →
      jStr p.2 ++ s1 = jStr v2 ++ s2 → p.2 = v2 ∧ s1 = s2) →
    ∀ (ys : List (List Char × JVal)) (r1 r2 : List Char),
      jStrMembers xs ++ (rbraceC :: r1) = jStrMembers ys ++ (rbraceC :: r2) →
        xs = ys ∧ r1 = r2 := by
  intro xs
  induction xs with
  | nil =>
    intro _ ys r1 r2 h
    rcases ys with _ | ⟨⟨l, w⟩, yt⟩
    · simp only [jStrMembers, List.nil_append] at h
      exact ⟨rfl, (List.cons.inj h).2⟩
    · obtain ⟨z, hz⟩ := jStrMembers_cons_append l w yt (rbraceC :: r2)
      rw [hz] at h
      simp only [jStrMembers, List.nil_append] at h
      exact absurd (List.cons.inj h).1 (by decide)
  | cons p xt ih =>
    intro hIH ys r1 r2 h
    obtain ⟨k, v⟩ := p
    have hIHv := hIH (k, v) (List.mem_cons_self (k, v) xt)
    rcases ys with _ | ⟨⟨l, w⟩, yt⟩
    · obtain ⟨z, hz⟩ := jStrMembers_cons_append k v xt (rbraceC :: r1)
      rw [hz] at h
      simp only [jStrMembers, List.nil_append] at h
      exact absurd (List.cons.inj h).1 (by decide)
    · rcases xt with _ | ⟨x', xt'⟩ <;> rcases yt with _ | ⟨y', yt'⟩
      · simp only [jStrMembers, List.cons_append, List.append_assoc,
          List.singleton_append] at h
        have h' := (List.cons.inj h).2
        obtain ⟨hk, hq⟩ := escape_split k l (':' :: (jStr v ++ (rbraceC :: r1)))
          (':' :: (jStr w ++ (rbraceC :: r2))) h'
        obtain ⟨hvw, hr⟩ := hIHv w (rbraceC :: r1) (rbraceC :: r2)
          (Or.inr (Or.inr rfl)) (Or.inr (Or.inr rfl)) (List.cons.inj hq).2
        exact ⟨by rw [hk, show v = w from hvw], (List.cons.inj hr).2⟩
      · simp only [jStrMembers, List.cons_append, List.append_assoc,
          List.singleton_append] at h
        have h' := (List.cons.inj h).2
        obtain ⟨hk, hq⟩ := escape_split k l (':' :: (jStr v ++ (rbraceC :: r1)))
          (':' :: (jStr w ++ (',' :: (jStrMembers (y' :: yt') ++ (rbraceC :: r2))))) h'
        obtain ⟨_, hr⟩ := hIHv w (rbraceC :: r1)
          (',' :: (jStrMembers (y' :: yt') ++ (rbraceC :: r2)))
          (Or.inr (Or.inr rfl)) (Or.inl rfl) (List.cons.inj hq).2
        exact absurd (List.cons.inj hr).1 (by decide)
      · simp only [jStrMembers, List.cons_append, List.append_assoc,
          List.singleton_append] at h
        have h' := (List.cons.inj h).2
        obtain ⟨hk, hq⟩ := escape_split k l
          (':' :: (jStr v ++ (',' :: (jStrMembers (x' :: xt') ++ (rbraceC :: r1)))))
          (':' :: (jStr w ++ (rbraceC :: r2))) h'
        obtain ⟨_, hr⟩ := hIHv w
          (',' :: (jStrMembers (x' :: xt') ++ (rbraceC :: r1))) (rbraceC :: r2)
          (Or.inl rfl) (Or.inr (Or.inr rfl)) (List.cons.inj hq).2
        exact absurd (List.cons.inj hr).1 (by decide)
      · simp only [jStrMembers, List.cons_append, List.append_assoc,
          List.singleton_append] at h
        have h' := (List.cons.inj h).2
        obtain ⟨hk, hq⟩ := escape_split k l
          (':' :: (jStr v ++ (',' :: (jStrMembers (x' :: xt') ++ (rbraceC :: r1)))))
          (':' :: (jStr w ++ (',' :: (jStrMembers (y' :: yt') ++ (rbraceC :: r2))))) h'
        obtain ⟨hvw, hr⟩ := hIHv w
          (',' :: (jStrMembers (x' :: xt') ++ (rbraceC :: r1)))
          (',' :: (jStrMembers (y' :: yt') ++ (rbraceC :: r2)))
          (Or.inl rfl) (Or.inl rfl) (List.cons.inj hq).2
        obtain ⟨hts, htr⟩ := ih (fun z hz => hIH z (List.mem_cons_of_mem (k, v) hz))
          (y' :: yt') r1 r2 (List.cons.inj hr).2
        exact ⟨by rw [hk, show v = w from hvw, hts], htr⟩

/-- Serialized values followed by delimiter-headed remainders cut
unambiguously: equal concatenations force equal values and remainders.  The
natural number N bounds the size of the left value for the induction. -/
theorem jStr_prefix_aux : ∀ (N : Nat) (v1 : JVal), sizeOf v1 ≤ N →
    ∀ (v2 : JVal) (r1 r2 : List Char), DelimHead r1 → DelimHead r2 →
      jStr v1 ++ r1 = jStr v2 ++ r2 → v1 = v2 ∧ r1 = r2 := by
  intro N
  induction N with
  | zero =>
    intro v1 hv
    exact absurd hv (by cases v1 <;> simp)
  | succ n ihN =>
    intro v1 hv1 v2 r1 r2 d1 d2 h
    cases v1 <;> cases v2
    case jnull.jnull =>
      simp only [jStr, List.cons_append, List.nil_append, List.cons.injEq,
        eq_self_iff_true, true_and] at h
      exact ⟨rfl, h⟩
    case jnull.jbool b =>
      cases b <;>
        simp only [jStr, List.cons_append, List.nil_append] at h <;>
        exact absurd (List.cons.inj h).1 (by decide)
    case jnull.jnum m =>
      simp only [jStr, List.cons_append, List.nil_append] at h
      exact absurd (natChars_append_head m r2 _ _ h.symm) (by decide)
    case jnull.jstr s2 =>
      simp only [jStr, List.cons_append, List.nil_append] at h
      exact absurd (List.cons.inj h).1 (by decide)
    case jnull.jarr ys =>
      simp only [jStr, List.cons_append, List.nil_append] at h
      exact absurd (List.cons.inj h).1 (by decide)
    case jnull.jobj ys =>
      simp only [jStr, List.cons_append, List.nil_append] at h
      exact absurd (List.cons.inj h).1 (by decide)
    case jbool.jnull b =>
      cases b <;>
        simp only [jStr, List.cons_append, List.nil_append] at h <;>
        exact absurd (List.cons.inj h).1 (by decide)
    case jbool.jbool b b' =>
      cases b <;> cases b' <;>
        simp only [jStr, List.cons_append, List.nil_append, List.cons.injEq,
          eq_self_iff_true, true_and] at h
      · exact ⟨rfl, h⟩
      · exact absurd h.1 (by decide)
      · exact absurd h.1 (by decide)
      · exact ⟨rfl, h⟩
    case jbool.jnum b m =>
      cases b <;>
        simp only [jStr, List.cons_append, List.nil_append] at h <;>
        exact absurd (natChars_append_head m r2 _ _ h.symm) (by decide)
    case jbool.jstr b s2 =>
      cases b <;>
        simp only [jStr, List.cons_append, List.nil_append] at h <;>
        exact absurd (List.cons.inj h).1 (by decide)
    case jbool.jarr b ys =>
      cases b <;>
        simp only [jStr, List.cons_append, List.nil_append] at h <;>
        exact absurd (List.cons.inj h).1 (by decide)
    case jbool.jobj b ys =>
      cases b <;>
        simp only [jStr, List.cons_append, List.nil_append] at h <;>
        exact absurd (List.cons.inj h).1 (by decide)
    case jnum.jnull m =>
      simp only [jStr, List.cons_append, List.nil_append] at h
      exact absurd (natChars_append_head m r1 _ _ h) (by decide)
    case jnum.jbool m b =>
      cases b <;>
        simp only [jStr, List.cons_append, List.nil_append] at h <;>
        exact absurd (natChars_append_head m r1 _ _ h) (by decide)
    case jnum.jnum m m' =>
      simp only [jStr] at h
      obtain ⟨hn, hr⟩ := natChars_prefix m m' r1 r2
        (delimHead_not_digit r1 d1) (delimHead_not_digit r2 d2) h
      exact ⟨by rw [hn], hr⟩
    case jnum.jstr m s2 =>
      simp only [jStr, List.cons_append, List.nil_append] at h
      exact absurd (natChars_append_head m r1 _ _ h) (by decide)
    case jnum.jarr m ys =>
      simp only [jStr, List.cons_append, List.nil_append] at h
      exact absurd (natChars_append_head m r1 _ _ h) (by decide)
    case jnum.jobj m ys =>
      simp only [jStr, List.cons_append, List.nil_append] at h
      exact absurd (natChars_append_head m r1 _ _ h) (by decide)
    case jstr.jnull s1 =>
      simp only [jStr, List.cons_append, List.nil_append] at h
      exact absurd (List.cons.inj h).1 (by decide)
    case jstr.jbool s1 b =>
      cases b <;>
        simp only [jStr, List.cons_append, List.nil_append] at h <;>
        exact absurd (List.cons.inj h).1 (by decide)
    case jstr.jnum s1 m =>
      simp only [jStr, List.cons_append, List.nil_append] at h
      exact absurd (natChars_append_head m r2 _ _ h.symm) (by decide)
    case jstr.jstr s1 s2 =>
      simp only [jStr, List.cons_append, List.append_assoc, List.singleton_append] at h
      obtain ⟨hs, hr⟩ := escape_split s1 s2 r1 r2 (List.cons.inj h).2
      exact ⟨by rw [hs], hr⟩
    case jstr.jarr s1 ys =>
      simp only [jStr, List.cons_append, List.nil_append] at h
      exact absurd (List.cons.inj h).1 (by decide)
    case jstr.jobj s1 ys =>
      simp only [jStr, List.cons_append, List.nil_append] at h
      exact absurd (List.cons.inj h).1 (by decide)
    case jarr.jnull xs =>
      simp only [jStr, List.cons_append, List.nil_append] at h
      exact absurd (List.cons.inj h).1 (by decide)
    case jarr.jbool xs b =>
      cases b <;>
        simp only [jStr, List.cons_append, List.nil_append] at h <;>
        exact absurd (List.cons.inj h).1 (by decide)
    case jarr.jnum xs m =>
      simp only [jStr, List.cons_append, List.nil_append] at h
      exact absurd (natChars_append_head m r2 _ _ h.symm) (by decide)
    case jarr.jstr xs s2 =>
      simp only [jStr, List.cons_append, List.nil_append] at h
      exact absurd (List.cons.inj h).1 (by decide)
    case jarr.jarr xs ys =>
      simp only [jStr, List.cons_append, List.append_assoc, List.singleton_append] at h
      have hIH : ∀ x ∈ xs, ∀ (w : JVal) (s1 s2 : List Char), DelimHead s1 → DelimHead s2 →
          jStr x ++ s1 = jStr w ++ s2 → x = w ∧ s1 = s2 := by
        intro x hx
        have hlt : sizeOf x < sizeOf xs := List.sizeOf_lt_of_mem hx
        have hsz : 1 + sizeOf xs ≤ n + 1 := by simpa using hv1
        exact ihN x (by omega)
      obtain ⟨hxy, hr⟩ := jStrItems_split xs hIH ys r1 r2 (List.cons.inj h).2
      exact ⟨by rw [hxy], hr⟩
    case jarr.jobj xs ys =>
      simp only [jStr, List.cons_append, List.nil_append] at h
      exact absurd (List.cons.inj h).1 (by decide)
    case jobj.jnull ms =>
      simp only [jStr, List.cons_append, List.nil_append] at h
      exact absurd (List.cons.inj h).1 (by decide)
    case jobj.jbool ms b =>
      cases b <;>
        simp only [jStr, List.cons_append, List.nil_append] at h <;>
        exact absurd (List.cons.inj h).1 (by decide)
    case jobj.jnum ms m =>
      simp only [jStr, List.cons_append, List.nil_append] at h
      exact absurd (natChars_append_head m r2 _ _ h.symm) (by decide)
    case jobj.jstr ms s2 =>
      simp only [jStr, List.cons_append, List.nil_append] at h
      exact absurd (List.cons.inj h).1 (by decide)
    case jobj.jarr ms ys =>
      simp only [jStr, List.cons_append, List.nil_append] at h
      exact absurd (List.cons.inj h).1 (by decide)
    case jobj.jobj ms ns =>
      simp only [jStr, List.cons_append, List.append_assoc, List.singleton_append] at h
      have hIH : ∀ p ∈ ms, ∀ (w : JVal) (s1 s2 : List Char), DelimHead s1 → DelimHead s2 →
          jStr p.2 ++ s1 = jStr w ++ s2 → p.2 = w ∧ s1 = s2 := by
        intro p hp
        obtain ⟨pk, pv⟩ := p
        have hlt : sizeOf (pk, pv) < sizeOf ms := List.sizeOf_lt_of_mem hp
        have hpair : sizeOf (pk, pv) = 1 + sizeOf pk + sizeOf pv := by simp
        have hsz : 1 + sizeOf ms ≤ n + 1 := by simpa using hv1
        exact ihN pv (by omega)
      obtain ⟨hxy, hr⟩ := jStrMembers_split ms hIH ns r1 r2 (List.cons.inj h).2
      exact ⟨by rw [hxy], hr⟩

/-- JSON serialization on the embedded fragment is injective. -/
theorem jStr_inj (v1 v2 : JVal) (h : jStr v1 = jStr v2) : v1 = v2 :=
  (jStr_prefix_aux (sizeOf v1) v1 le_rfl v2 [] [] trivial trivial (by simpa using h)).1

/-- Reflexivity of the element-list boolean equality, given it on elements. -/
theorem itemsBeq_refl : ∀ (xs : List JVal),
    (∀ x ∈ xs, jvalBeq x x = true) → itemsBeq xs xs = true := by
  intro xs
  induction xs with
  | nil => intro _; rfl
  | cons x t ih =>
    intro hx
    simp only [itemsBeq, Bool.and_eq_true]
    exact ⟨hx x (List.mem_cons_self x t),
      ih (fun z hz => hx z (List.mem_cons_of_mem x hz))⟩

/-- Reflexivity of the member-list boolean equality, given it on values. -/
theorem membersBeq_refl : ∀ (ms : List (List Char × JVal)),
    (∀ p ∈ ms, jvalBeq p.2 p.2 = true) → membersBeq ms ms = true := by
  intro ms
  induction ms with
  | nil => intro _; rfl
  | cons p t ih =>
    intro hp
    obtain ⟨k, v⟩ := p
    simp only [membersBeq, Bool.and_eq_true, decide_eq_true_eq]
    exact ⟨trivial, hp (k, v) (List.mem_cons_self (k, v) t),
      ih (fun z hz => hp z (List.mem_cons_of_mem (k, v) hz))⟩

/-- Reflexivity of the boolean structural equality, by size-bounded
induction. -/
theorem jvalBeq_refl_aux : ∀ (N : Nat) (v : JVal), sizeOf v ≤ N → jvalBeq v v = true := by
  intro N
  induction N with
  | zero =>
    intro v hv
    exact absurd hv (by cases v <;> simp)
  | succ n ihN =>
    intro v hv
    cases v with
    | jnull => rfl
    | jbool b => simp [jvalBeq]
    | jnum m => simp [jvalBeq]
    | jstr s => simp [jvalBeq]
    | jarr xs =>
      have hsz : 1 + sizeOf xs ≤ n + 1 := by simpa using hv
      exact itemsBeq_refl xs (fun x hx =>
        ihN x (by have := List.sizeOf_lt_of_mem hx; omega))
    | jobj ms =>
      have hsz : 1 + sizeOf ms ≤ n + 1 := by simpa using hv
      refine membersBeq_refl ms ?_
      intro p hp
      obtain ⟨pk, pv⟩ := p
      have hlt : sizeOf (pk, pv) < sizeOf ms := List.sizeOf_lt_of_mem hp
      have hpair : sizeOf (pk, pv) = 1 + sizeOf pk + sizeOf pv := by simp
      exact ihN pv (by omega)

/-- Boolean structural equality is reflexive. -/
theorem jvalBeq_refl (v : JVal) : jvalBeq v v = true :=
  jvalBeq_refl_aux (sizeOf v) v le_rfl

/-- Deep equality of a snapshot with itself. -/
theorem depsDeepEq_refl (D : List JVal) : depsDeepEq D D = true :=
  jvalBeq_refl (canon (.jarr D))

/-- Deep-unequal snapshots have different JSON serializations: the
contrapositive of serializer injectivity plus reflexivity of deep
equality. -/
theorem depsDeepEq_false_jStr_ne (D1 D2 : List JVal) (h : depsDeepEq D1 D2 = false) :
    jStrDeps D1 ≠ jStrDeps D2 := by
  intro heq
  have hv : JVal.jarr D1 = JVal.jarr D2 := jStr_inj _ _ heq
  have hD : D1 = D2 := by injection hv
  rw [hD] at h
  rw [depsDeepEq_refl D2] at h
  exact absurd h (by decide)

/-- C4: after a set with snapshot D1, a get with any deep-unequal snapshot D2
returns absent — whatever the TTL and however little time has passed — and a
subsequent has reports the key gone: the mismatch evicts the entry.  This
holds for every prior cache state, because set always records the snapshot
before anything else. -/
theorem C4_dep_mismatch_returns_absent_and_evicts {α : Type} (c : MemoryCache α)
    (t0 t1 : Nat) (key : String) (v : α) (ttl : Nat) (D1 D2 : List JVal)
    (hne : depsDeepEq D1 D2 = false) :
    (MemoryCache.get (MemoryCache.set c t0 key v ttl D1).2 t1 key D2).1 = none ∧
    MemoryCache.has (MemoryCache.get (MemoryCache.set c t0 key v ttl D1).2 t1 key D2).2
      key = false := by
  have hdeps := MemoryCache.set_snd_dependencies c t0 key v ttl D1
  have hser := depsDeepEq_false_jStr_ne D1 D2 hne
  constructor <;>
    simp [MemoryCache.get, MemoryCache.dependenciesChanged, hdeps, upd_self, hser,
      MemoryCache.remove, MemoryCache.has]

/-- Witness for C4 at a concrete input: snapshots [1,2] and [1,3] around the
scenario of the specification. -/
theorem C4_dep_mismatch_returns_absent_and_evicts_witness :
    (MemoryCache.get (MemoryCache.set (MemoryCache.init Nat) 0 "B" 7 0
        [.jnum 1, .jnum 2]).2 5 "B" [.jnum 1, .jnum 3]).1 = none ∧
    MemoryCache.has (MemoryCache.get (MemoryCache.set (MemoryCache.init Nat) 0 "B" 7 0
        [.jnum 1, .jnum 2]).2 5 "B" [.jnum 1, .jnum 3]).2 "B" = false :=
  C4_dep_mismatch_returns_absent_and_evicts (MemoryCache.init Nat) 0 5 "B" 7 0
    [.jnum 1, .jnum 2] [.jnum 1, .jnum 3] (by decide)

/-- C8 (amended part): a get whose snapshot deep-differs from the stored one
returns absent, evicts the entry, and deletes the stored fingerprint — the
removal runs after the fingerprint map was overwritten, so afterwards the key
has no snapshot at all, and any subsequent dependency check on the key is
treated as a first observation and reports unchanged. -/
theorem C8_dep_mismatch_deletes_fingerprint {α : Type} (c : MemoryCache α)
    (t1 : Nat) (key : String) (D1 D2 : List JVal)
    (hstored : c.dependencies key = some D1) (hne : depsDeepEq D1 D2 = false) :
    (MemoryCache.get c t1 key D2).1 = none ∧
    ((MemoryCache.get c t1 key D2).2).cache key = none ∧
    ((MemoryCache.get c t1 key D2).2).dependencies key = none ∧
    (∀ D3, (((MemoryCache.get c t1 key D2).2).dependenciesChanged key D3).1 = false) := by
  have hser := depsDeepEq_false_jStr_ne D1 D2 hne
  refine ⟨?_, ?_, ?_, ?_⟩ <;>
    simp [MemoryCache.get, MemoryCache.dependenciesChanged, hstored, upd_self, hser,
      MemoryCache.remove]

/-- Witness for C8's amended statement at a concrete input. -/
theorem C8_dep_mismatch_deletes_fingerprint_witness :
    (MemoryCache.get
        (⟨fun _ => none, upd (fun _ => none) "k" (some [.jnum 1]), fun _ => false⟩ :
          MemoryCache Nat) 0 "k" [.jnum 2]).1 = none ∧
    ((MemoryCache.get
        (⟨fun _ => none, upd (fun _ => none) "k" (some [.jnum 1]), fun _ => false⟩ :
          MemoryCache Nat) 0 "k" [.jnum 2]).2).cache "k" = none ∧
    ((MemoryCache.get
        (⟨fun _ => none, upd (fun _ => none) "k" (some [.jnum 1]), fun _ => false⟩ :
          MemoryCache Nat) 0 "k" [.jnum 2]).2).dependencies "k" = none ∧
    (∀ D3, (((MemoryCache.get
        (⟨fun _ => none, upd (fun _ => none) "k" (some [.jnum 1]), fun _ => false⟩ :
          MemoryCache Nat) 0 "k" [.jnum 2]).2).dependenciesChanged "k" D3).1 = false) :=
  C8_dep_mismatch_deletes_fingerprint
    (⟨fun _ => none, upd (fun _ => none) "k" (some [.jnum 1]), fun _ => false⟩ : MemoryCache Nat)
    0 "k" [.jnum 1] [.jnum 2]
    (upd_self (fun _ => none) "k" (some ([JVal.jnum 1] : List JVal))) (by decide)

/-- Counterexample to C8 as stated: after the evicting get, the fingerprint
tracker does not hold the newly supplied snapshot — it holds nothing for the
key, because remove deletes the entry the dependency check had just
written. -/
theorem C8_fingerprint_not_updated_counterexample :
    (((MemoryCache.get
        (⟨fun _ => none, upd (fun _ => none) "j" (some [.jnum 1]), fun _ => false⟩ :
          MemoryCache Nat) 0 "j" [.jnum 2]).2).dependencies "j").isSome = false ∧
    (MemoryCache.get
        (⟨fun _ => none, upd (fun _ => none) "j" (some [.jnum 1]), fun _ => false⟩ :
          MemoryCache Nat) 0 "j" [.jnum 2]).1 = none := by
  decide

/-- Arrivals for a key that is already in flight all join the pool in order
and change nothing else the single-flight argument depends on. -/
theorem arriveAll_joins (opts : MwOptions) (hp : opts.pooling = true) (key : String)
    (now : Nat) : ∀ (ids : List Nat) (s : MwState), s.inFlight key = true →
      (arriveAll s opts now key ids).pool key = s.pool key ++ ids ∧
      (arriveAll s opts now key ids).inFlight = s.inFlight ∧
      (arriveAll s opts now key ids).downstreamRan = s.downstreamRan ∧
      (arriveAll s opts now key ids).response = s.response ∧
      (arriveAll s opts now key ids).resolveCount = s.resolveCount := by
  intro ids
  induction ids with
  | nil => intro s _; exact ⟨by simp [arriveAll], rfl, rfl, rfl, rfl⟩
  | cons i t ih =>
    intro s hs
    have hreq : requestHasPool s opts key = true := by
      simp [requestHasPool, hs, hp]
    have hstep : arriveMiss s opts now key i =
        { s with
            pool := fun k => if k = key then s.pool k ++ [i] else s.pool k
            timerDeadline := fun j =>
              if j = i then some (now + opts.requestTimeoutMs) else s.timerDeadline j } := by
      simp [arriveMiss, hreq]
    have hfold : arriveAll s opts now key (i :: t) =
        arriveAll (arriveMiss s opts now key i) opts now key t := rfl
    obtain ⟨h1, h2, h3, h4, h5⟩ := ih (arriveMiss s opts now key i) (by rw [hstep]; exact hs)
    rw [hfold]
    refine ⟨?_, ?_, ?_, ?_, ?_⟩
    · rw [h1, hstep]
      simp
    · rw [h2, hstep]
    · rw [h3, hstep]
    · rw [h4, hstep]
    · rw [h5, hstep]

/-- With a result outcome that is not a throw, storeCache always resolves the
pool, on the allow path and on both decline paths alike. -/
theorem storeCache_resolves (s : MwState) (opts : MwOptions) (key : String)
    (resp : CachedResponse) (policy : SetPolicyResult) (b : Bool) :
    storeCache s opts key resp policy (.ok b) = resolvePool s opts key resp := by
  cases policy <;> rfl

/-- C1: starting from a state with no pool and no in-flight mark for the key,
N concurrent misses i1, …, iN for that key make exactly the first arrival the
leader — only it runs the downstream handler — while every later arrival
joins the waiter pool, and when the leader's response completes with any
write-policy outcome and a non-throwing store, every one of the N requests
has been answered with the identical payload the leader produced. -/
theorem C1_single_flight (opts : MwOptions) (hp : opts.pooling = true) (s0 : MwState)
    (key : String) (i1 : Nat) (rest : List Nat) (now : Nat)
    (hclean : s0.inFlight key = false) (hpool : s0.pool key = []) (hnomem : i1 ∉ rest)
    (resp : CachedResponse) (policy : SetPolicyResult) (b : Bool) :
    (arriveAll s0 opts now key (i1 :: rest)).downstreamRan = s0.downstreamRan ++ [i1] ∧
    (arriveAll s0 opts now key (i1 :: rest)).pool key = rest ∧
    (arriveAll s0 opts now key (i1 :: rest)).inFlight key = true ∧
    (leaderComplete (arriveAll s0 opts now key (i1 :: rest)) opts key i1 resp policy
        (.ok b)).response i1 = some (.leaderSent resp) ∧
    (∀ j ∈ rest,
      (leaderComplete (arriveAll s0 opts now key (i1 :: rest)) opts key i1 resp policy
        (.ok b)).response j = some (.pooled resp)) ∧
    (∀ j ∈ i1 :: rest, ∃ a,
      (leaderComplete (arriveAll s0 opts now key (i1 :: rest)) opts key i1 resp policy
        (.ok b)).response j = some a ∧ a.payload = some resp) := by
  have hreq : requestHasPool s0 opts key = false := by
    simp [requestHasPool, hclean]
  have hstep : arriveMiss s0 opts now key i1 =
      { s0 with
          inFlight := fun k =>
            if k = key then (if opts.pooling then true else s0.inFlight k) else s0.inFlight k
          downstreamRan := s0.downstreamRan ++ [i1] } := by
    simp [arriveMiss, hreq]
  have hfold : arriveAll s0 opts now key (i1 :: rest) =
      arriveAll (arriveMiss s0 opts now key i1) opts now key rest := rfl
  have hsflight : (arriveMiss s0 opts now key i1).inFlight key = true := by
    rw [hstep]; simp [hp]
  obtain ⟨h1, h2, h3, h4, h5⟩ := arriveAll_joins opts hp key now rest
    (arriveMiss s0 opts now key i1) hsflight
  have hApool : (arriveAll s0 opts now key (i1 :: rest)).pool key = rest := by
    rw [hfold, h1, hstep]
    simp [hpool]
  have hAflight : (arriveAll s0 opts now key (i1 :: rest)).inFlight key = true := by
    rw [hfold, h2]
    exact hsflight
  have hAdown : (arriveAll s0 opts now key (i1 :: rest)).downstreamRan =
      s0.downstreamRan ++ [i1] := by
    rw [hfold, h3, hstep]
  have hsf : leaderComplete (arriveAll s0 opts now key (i1 :: rest)) opts key i1 resp policy
      (.ok b) =
      { resolvePool (arriveAll s0 opts now key (i1 :: rest)) opts key resp with
          response := fun j => if j = i1 then some (.leaderSent resp)
            else (resolvePool (arriveAll s0 opts now key (i1 :: rest)) opts key resp).response j } := by
    rw [leaderComplete, storeCache_resolves]
  have hleaderResp : (leaderComplete (arriveAll s0 opts now key (i1 :: rest)) opts key i1 resp
      policy (.ok b)).response i1 = some (.leaderSent resp) := by
    rw [hsf]; simp
  have hwaiterResp : ∀ j ∈ rest,
      (leaderComplete (arriveAll s0 opts now key (i1 :: rest)) opts key i1 resp policy
        (.ok b)).response j = some (.pooled resp) := by
    intro j hj
    have hji : j ≠ i1 := fun he => hnomem (he ▸ hj)
    rw [hsf]
    simp only [if_neg hji]
    simp [resolvePool, hApool, hj]
  refine ⟨hAdown, hApool, hAflight, hleaderResp, hwaiterResp, ?_⟩
  intro j hj
  rcases List.mem_cons.1 hj with he | hm
  · exact ⟨.leaderSent resp, he ▸ hleaderResp, rfl⟩
  · exact ⟨.pooled resp, hwaiterResp j hm, rfl⟩

/-- Witness for C1 at a concrete input: three concurrent misses for one key;
request 1 leads, requests 2 and 3 pool, and all three receive the payload. -/
theorem C1_single_flight_witness :
    (arriveAll MwState.init ⟨true, 20000⟩ 0 "ck" [1, 2, 3]).downstreamRan =
      MwState.init.downstreamRan ++ [1] ∧
    (arriveAll MwState.init ⟨true, 20000⟩ 0 "ck" [1, 2, 3]).pool "ck" = [2, 3] ∧
    (arriveAll MwState.init ⟨true, 20000⟩ 0 "ck" [1, 2, 3]).inFlight "ck" = true ∧
    (leaderComplete (arriveAll MwState.init ⟨true, 20000⟩ 0 "ck" [1, 2, 3]) ⟨true, 20000⟩
        "ck" 1 ⟨"b", "h", 200⟩ .allow (.ok true)).response 1 =
      some (.leaderSent ⟨"b", "h", 200⟩) ∧
    (∀ j ∈ [2, 3],
      (leaderComplete (arriveAll MwState.init ⟨true, 20000⟩ 0 "ck" [1, 2, 3]) ⟨true, 20000⟩
        "ck" 1 ⟨"b", "h", 200⟩ .allow (.ok true)).response j =
      some (.pooled ⟨"b", "h", 200⟩)) ∧
    (∀ j ∈ [1, 2, 3], ∃ a,
      (leaderComplete (arriveAll MwState.init ⟨true, 20000⟩ 0 "ck" [1, 2, 3]) ⟨true, 20000⟩
        "ck" 1 ⟨"b", "h", 200⟩ .allow (.ok true)).response j = some a ∧
      a.payload = some ⟨"b", "h", 200⟩) :=
  C1_single_flight ⟨true, 20000⟩ rfl MwState.init "ck" 1 [2, 3] 0 rfl rfl (by decide)
    ⟨"b", "h", 200⟩ .allow true

/-- C5 failing run: a leader whose awaited cache.set throws — as
MemoryCache.set does for an out-of-range TTL — completes its own response,
yet resolvePool is never called: the pool still holds the waiter and the key
is still marked in flight afterwards.  The write policy allowed the write and
the store neither stored nor reported failure; it threw, which aborts
storeCache before the resolve step. -/
theorem C5_throwing_store_leaves_key_in_flight :
    (MemoryCache.set (MemoryCache.init Nat) 1000 "ck" 42 35792 []).1 =
        .error "Timeout cannot be greater than 2147483647ms" ∧
    (arriveAll MwState.init ⟨true, 20000⟩ 0 "ck" [1, 2]).inFlight "ck" = true ∧
    (leaderComplete (arriveAll MwState.init ⟨true, 20000⟩ 0 "ck" [1, 2]) ⟨true, 20000⟩ "ck" 1
        ⟨"b", "h", 200⟩ .allow
        (memSetOutcome (MemoryCache.set (MemoryCache.init Nat) 1000 "ck" 42 35792 []).1)).response 1 =
      some (.leaderSent ⟨"b", "h", 200⟩) ∧
    (leaderComplete (arriveAll MwState.init ⟨true, 20000⟩ 0 "ck" [1, 2]) ⟨true, 20000⟩ "ck" 1
        ⟨"b", "h", 200⟩ .allow
        (memSetOutcome (MemoryCache.set (MemoryCache.init Nat) 1000 "ck" 42 35792 []).1)).resolveCount "ck" = 0 ∧
    (leaderComplete (arriveAll MwState.init ⟨true, 20000⟩ 0 "ck" [1, 2]) ⟨true, 20000⟩ "ck" 1
        ⟨"b", "h", 200⟩ .allow
        (memSetOutcome (MemoryCache.set (MemoryCache.init Nat) 1000 "ck" 42 35792 []).1)).inFlight "ck" = true ∧
    (leaderComplete (arriveAll MwState.init ⟨true, 20000⟩ 0 "ck" [1, 2]) ⟨true, 20000⟩ "ck" 1
        ⟨"b", "h", 200⟩ .allow
        (memSetOutcome (MemoryCache.set (MemoryCache.init Nat) 1000 "ck" 42 35792 []).1)).pool "ck" = [2] ∧
    (leaderComplete (arriveAll MwState.init ⟨true, 20000⟩ 0 "ck" [1, 2]) ⟨true, 20000⟩ "ck" 1
        ⟨"b", "h", 200⟩ .allow
        (memSetOutcome (MemoryCache.set (MemoryCache.init Nat) 1000 "ck" 42 35792 []).1)).response 2 = none := by
  refine ⟨?_, ?_, ?_, ?_, ?_, ?_, ?_⟩
  · have h0 : ¬(35792 = 0) := by decide
    have h1 : 35792 * 60000 > 0x7FFFFFFF := by decide
    simp only [MemoryCache.set, expiryFromMins]
    rw [if_neg h0, if_pos h1]
  all_goals decide

/-- C5 (positive side, used as context by the failing run above): with any
outcome the awaited cache.set actually returns — success or reported
failure — and with any write-policy result, the leader's completion calls
resolvePool exactly once and clears the in-flight mark for the key. -/
theorem C5_nonthrowing_completion_resolves_once (s : MwState) (opts : MwOptions)
    (hp : opts.pooling = true) (key : String) (i : Nat) (resp : CachedResponse)
    (policy : SetPolicyResult) (b : Bool) :
    (leaderComplete s opts key i resp policy (.ok b)).resolveCount key =
        s.resolveCount key + 1 ∧
    (leaderComplete s opts key i resp policy (.ok b)).inFlight key = false := by
  rw [leaderComplete, storeCache_resolves]
  constructor <;> simp [resolvePool, hp]

/-- Witness for the positive side of C5 at a concrete input. -/
theorem C5_nonthrowing_completion_resolves_once_witness :
    (leaderComplete (arriveAll MwState.init ⟨true, 20000⟩ 0 "ck" [1, 2]) ⟨true, 20000⟩ "ck" 1
        ⟨"b", "h", 200⟩ .allow (.ok true)).resolveCount "ck" =
      (arriveAll MwState.init ⟨true, 20000⟩ 0 "ck" [1, 2]).resolveCount "ck" + 1 ∧
    (leaderComplete (arriveAll MwState.init ⟨true, 20000⟩ 0 "ck" [1, 2]) ⟨true, 20000⟩ "ck" 1
        ⟨"b", "h", 200⟩ .allow (.ok true)).inFlight "ck" = false :=
  C5_nonthrowing_completion_resolves_once (arriveAll MwState.init ⟨true, 20000⟩ 0 "ck" [1, 2])
    ⟨true, 20000⟩ rfl "ck" 1 ⟨"b", "h", 200⟩ .allow true

/-- C6: a pooled waiter whose pending timer is due — the leader has not
broadcast by the waiter's deadline, else the delivery would have cleared the
timer — is unregistered from that key's pool and receives the 504
gateway-timeout answer, while every other request's answer, every other
waiter's pool membership and timer, every other key's pool, the in-flight
marks, the downstream history and the resolve counters are untouched. -/
theorem C6_waiter_timeout (s : MwState) (key : String) (i : Nat) (now d : Nat)
    (hdl : s.timerDeadline i = some d) (hdue : d ≤ now) (hmem : i ∈ s.pool key) :
    (fireTimeout s key i now).response i = some .gatewayTimeout504 ∧
    i ∉ (fireTimeout s key i now).pool key ∧
    (∀ j, j ≠ i → (fireTimeout s key i now).response j = s.response j) ∧
    (∀ j ∈ s.pool key, j ≠ i → j ∈ (fireTimeout s key i now).pool key) ∧
    (∀ k, k ≠ key → (fireTimeout s key i now).pool k = s.pool k) ∧
    (∀ j, j ≠ i → (fireTimeout s key i now).timerDeadline j = s.timerDeadline j) ∧
    (fireTimeout s key i now).inFlight = s.inFlight ∧
    (fireTimeout s key i now).downstreamRan = s.downstreamRan ∧
    (fireTimeout s key i now).resolveCount = s.resolveCount := by
  have hft : fireTimeout s key i now =
      { s with
          pool := fun k => if k = key then (s.pool k).filter (fun j => j ≠ i) else s.pool k
          timerDeadline := fun j => if j = i then none else s.timerDeadline j
          response := fun j => if j = i then some .gatewayTimeout504 else s.response j } := by
    rw [fireTimeout, hdl]
    simp [hdue]
  rw [hft]
  refine ⟨by simp, ?_, ?_, ?_, ?_, ?_, rfl, rfl, rfl⟩
  · simp [List.mem_filter]
  · intro j hj
    simp [hj]
  · intro j hj hji
    simp [List.mem_filter, hj, hji]
  · intro k hk
    simp [hk]
  · intro j hj
    simp [hj]

/-- Witness for C6 at a concrete input: waiter 2 joined at time 0 with the
default 20000 ms timeout, the leader never resolved, and the timer fires at
25000. -/
theorem C6_waiter_timeout_witness :
    (fireTimeout (arriveAll MwState.init ⟨true, 20000⟩ 0 "ck" [1, 2, 3]) "ck" 2
        25000).response 2 = some .gatewayTimeout504 ∧
    2 ∉ (fireTimeout (arriveAll MwState.init ⟨true, 20000⟩ 0 "ck" [1, 2, 3]) "ck" 2
        25000).pool "ck" ∧
    (∀ j, j ≠ 2 → (fireTimeout (arriveAll MwState.init ⟨true, 20000⟩ 0 "ck" [1, 2, 3]) "ck" 2
        25000).response j = (arriveAll MwState.init ⟨true, 20000⟩ 0 "ck" [1, 2, 3]).response j) ∧
    (∀ j ∈ (arriveAll MwState.init ⟨true, 20000⟩ 0 "ck" [1, 2, 3]).pool "ck", j ≠ 2 →
      j ∈ (fireTimeout (arriveAll MwState.init ⟨true, 20000⟩ 0 "ck" [1, 2, 3]) "ck" 2
        25000).pool "ck") ∧
    (∀ k, k ≠ "ck" → (fireTimeout (arriveAll MwState.init ⟨true, 20000⟩ 0 "ck" [1, 2, 3]) "ck" 2
        25000).pool k = (arriveAll MwState.init ⟨true, 20000⟩ 0 "ck" [1, 2, 3]).pool k) ∧
    (∀ j, j ≠ 2 → (fireTimeout (arriveAll MwState.init ⟨true, 20000⟩ 0 "ck" [1, 2, 3]) "ck" 2
        25000).timerDeadline j =
      (arriveAll MwState.init ⟨true, 20000⟩ 0 "ck" [1, 2, 3]).timerDeadline j) ∧
    (fireTimeout (arriveAll MwState.init ⟨true, 20000⟩ 0 "ck" [1, 2, 3]) "ck" 2
        25000).inFlight = (arriveAll MwState.init ⟨true, 20000⟩ 0 "ck" [1, 2, 3]).inFlight ∧
    (fireTimeout (arriveAll MwState.init ⟨true, 20000⟩ 0 "ck" [1, 2, 3]) "ck" 2
        25000).downstreamRan =
      (arriveAll MwState.init ⟨true, 20000⟩ 0 "ck" [1, 2, 3]).downstreamRan ∧
    (fireTimeout (arriveAll MwState.init ⟨true, 20000⟩ 0 "ck" [1, 2, 3]) "ck" 2
        25000).resolveCount =
      (arriveAll MwState.init ⟨true, 20000⟩ 0 "ck" [1, 2, 3]).resolveCount :=
  C6_waiter_timeout (arriveAll MwState.init ⟨true, 20000⟩ 0 "ck" [1, 2, 3]) "ck" 2 25000 20000
    (by decide) (by decide) (by decide)

end CacheExpress
